import Mathlib

/-!
Verification of the Application Activity Analytics Engine of the Job Buddy
repository (`src/app.py`).  The definitions below are a shallow embedding of
the data-handling logic of `plot_interactive_calendar`, `render_dashboard`
and `render_more_analysis`: calendar dates are modelled as year/month/day
triples, Python `date.toordinal` is reproduced by the standard proleptic
Gregorian formulas, Python float arithmetic on exact integer inputs is
modelled by exact rational/integer arithmetic (the quantities involved are
far from any rounding boundary), and pandas data frames are modelled as
lists.
-/

namespace JobBuddy

/-! ## Calendar dates (model of `datetime.date`) -/

/-- A calendar date, as in Python's `datetime.date`. -/
structure Date where
  year : Nat
  month : Nat
  day : Nat
deriving DecidableEq

/-- Gregorian leap-year test, as in Python's `calendar.isleap`. -/
def isLeap (y : Nat) : Bool :=
  (y % 4 == 0 && y % 100 != 0) || y % 400 == 0

/-- Number of days in a month, as in Python's `calendar.monthrange`. -/
def daysInMonth (y m : Nat) : Nat :=
  if m = 2 then (if isLeap y then 29 else 28)
  else if m = 4 ∨ m = 6 ∨ m = 9 ∨ m = 11 then 30
  else 31

/-- Validity of a `Date`: the triples `datetime.date` can actually hold. -/
def Date.Valid (d : Date) : Prop :=
  1 ≤ d.year ∧ 1 ≤ d.month ∧ d.month ≤ 12 ∧ 1 ≤ d.day ∧
    d.day ≤ daysInMonth d.year d.month

instance (d : Date) : Decidable d.Valid := by
  unfold Date.Valid; infer_instance

/-- Days in all years before year `y` (CPython `_days_before_year`). -/
def daysBeforeYear (y : Nat) : Nat :=
  (y - 1) * 365 + (y - 1) / 4 - (y - 1) / 100 + (y - 1) / 400

/-- Days in year `y` preceding month `m` (CPython `_days_before_month`). -/
def daysBeforeMonth (y m : Nat) : Nat :=
  (match m with
   | 1 => 0 | 2 => 31 | 3 => 59 | 4 => 90 | 5 => 120 | 6 => 151
   | 7 => 181 | 8 => 212 | 9 => 243 | 10 => 273 | 11 => 304 | _ => 334)
  + (if 2 < m ∧ isLeap y then 1 else 0)

/-- Proleptic Gregorian ordinal of a date (CPython `date.toordinal`,
`0001-01-01` has ordinal 1). -/
def Date.toOrdinal (d : Date) : Nat :=
  daysBeforeYear d.year + daysBeforeMonth d.year d.month + d.day

/-- Python `date.weekday()`: Monday = 0, ..., Sunday = 6 (this is also the
value of the pandas `.dt.weekday` accessor used for `Day_Num`). -/
def pyWeekday (d : Date) : Nat := (d.toOrdinal + 6) % 7

/-! ## ISO 8601 week calendar (model of `date.isocalendar` and `%G`/`%V`) -/

/-- Ordinal of the Monday starting ISO week 1 of year `y`
(CPython `_isoweek1monday`). -/
def isoweek1monday (y : Nat) : Int :=
  let firstday : Int := (Date.toOrdinal ⟨y, 1, 1⟩ : Nat)
  let firstweekday := (firstday + 6) % 7
  let week1monday := firstday - firstweekday
  if 3 < firstweekday then week1monday + 7 else week1monday

/-- The (ISO year, ISO week) pair of a date, following CPython's
`date.isocalendar` (the ISO weekday component is omitted: the program never
uses it).  Python's `divmod` on ints is floored division, hence `Int.fdiv`. -/
def isocalendar (d : Date) : Nat × Nat :=
  let today : Int := (d.toOrdinal : Nat)
  let week := (today - isoweek1monday d.year).fdiv 7
  if week < 0 then
    (d.year - 1, ((today - isoweek1monday (d.year - 1)).fdiv 7 + 1).toNat)
  else if 52 ≤ week ∧ isoweek1monday (d.year + 1) ≤ today then
    (d.year + 1, 1)
  else
    (d.year, (week + 1).toNat)

/-! ## Decimal rendering of numbers (model of Python `str`, `%G`, `%V`) -/

/-- The decimal digit characters. -/
def dch (n : Nat) : Char :=
  match n with
  | 0 => '0' | 1 => '1' | 2 => '2' | 3 => '3' | 4 => '4'
  | 5 => '5' | 6 => '6' | 7 => '7' | 8 => '8' | _ => '9'

/-- Worker for `digitChars`: structural recursion on a fuel argument (the
value itself bounds the number of digits), so that the kernel can evaluate
it on concrete inputs. -/
def digitCharsFuel : Nat → Nat → List Char
  | 0, n => [dch n]
  | f + 1, n =>
      if n < 10 then [dch n]
      else digitCharsFuel f (n / 10) ++ [dch (n % 10)]

/-- Decimal digits of `n`, most significant first: the character sequence
produced by Python `str` on a non-negative int (and by `%G` for the years the
program can encounter, which are 4-digit). -/
def digitChars (n : Nat) : List Char := digitCharsFuel n n

lemma digitCharsFuel_small (f n : Nat) (h : n < 10) :
    digitCharsFuel f n = [dch n] := by
  cases f with
  | zero => rfl
  | succ g => rw [digitCharsFuel, if_pos h]

lemma digitCharsFuel_congr (n : Nat) : ∀ f1 f2 : Nat, n ≤ f1 → n ≤ f2 →
    digitCharsFuel f1 n = digitCharsFuel f2 n := by
  induction n using Nat.strong_induction_on with
  | _ n ih =>
    intro f1 f2 h1 h2
    by_cases h : n < 10
    · rw [digitCharsFuel_small _ _ h, digitCharsFuel_small _ _ h]
    · obtain ⟨g1, rfl⟩ : ∃ g, f1 = g + 1 := ⟨f1 - 1, by omega⟩
      obtain ⟨g2, rfl⟩ : ∃ g, f2 = g + 1 := ⟨f2 - 1, by omega⟩
      rw [digitCharsFuel, digitCharsFuel, if_neg h, if_neg h]
      have hdiv : n / 10 < n := Nat.div_lt_self (by omega) (by omega)
      rw [ih (n / 10) hdiv g1 g2 (by omega) (by omega)]

/-- The recursion equation that characterizes `digitChars`. -/
lemma digitChars_eq (n : Nat) :
    digitChars n = if n < 10 then [dch n]
      else digitChars (n / 10) ++ [dch (n % 10)] := by
  by_cases h : n < 10
  · rw [if_pos h]
    exact digitCharsFuel_small _ _ h
  · rw [if_neg h]
    obtain ⟨g, hg⟩ : ∃ g, n = g + 1 := ⟨n - 1, by omega⟩
    unfold digitChars
    rw [hg, digitCharsFuel, if_neg (hg ▸ h)]
    have hdiv : (g + 1) / 10 < g + 1 := Nat.div_lt_self (by omega) (by omega)
    rw [digitCharsFuel_congr ((g + 1) / 10) g ((g + 1) / 10) (by omega) le_rfl]

/-- Week number rendered by `strftime("%V")`: zero-padded to two digits. -/
def padV (w : Nat) : List Char :=
  if w < 10 then '0' :: digitChars w else digitChars w

/-- Python `str.zfill(2)`: left-pad with zeros to length two. -/
def zfill2 (s : List Char) : List Char :=
  if s.length < 2 then List.replicate (2 - s.length) '0' ++ s else s

/-- The `Year_Week` key of a record, `df["Date"].dt.strftime("%G-W%V")`
(line 514 of `app.py`). -/
def strfYearWeek (d : Date) : String :=
  ⟨digitChars (isocalendar d).1 ++ '-' :: 'W' :: padV (isocalendar d).2⟩

/-- The current-week key built at line 516 of `app.py`:
`f"{current_week[0]}-W{str(current_week[1]).zfill(2)}"`. -/
def fstrYearWeek (d : Date) : String :=
  ⟨digitChars (isocalendar d).1 ++
    '-' :: 'W' :: zfill2 (digitChars (isocalendar d).2)⟩

/-! ## Legend tick generation (lines 299-308 of `app.py`) -/

/-- Python `round(n / 5)` for a non-negative int `n`.  The exact value `n / 5`
has fractional part in `{0, .2, .4, .6, .8}`, never `.5`, so round-half-even
coincides with rounding to the nearest integer; float error (`< 1e-15`) can
never bridge the `≥ 0.1` gap to a rounding boundary. -/
def pyRound5 (n : Nat) : Nat :=
  if n % 5 ≤ 2 then n / 5 else n / 5 + 1

/-- Python `list(range(0, stop, step))` for `0 < step`. -/
def pyRangeStep (stop step : Nat) : List Nat :=
  (List.range ((stop + step - 1) / step)).map (· * step)

/-- The legend tick values computed for a grid whose maximum cell count is
`maxApps` (lines 302-308 of `app.py`).  `getLastD 0` models `tick_values[-1]`;
the list is provably non-empty there, so the default is never used. -/
def legendTicks (maxApps : Nat) : List Nat :=
  if maxApps ≤ 7 then
    List.range (maxApps + 1)
  else if (pyRangeStep (maxApps + 1) (max 1 (pyRound5 maxApps))).getLastD 0
      ≠ maxApps then
    pyRangeStep (maxApps + 1) (max 1 (pyRound5 maxApps)) ++ [maxApps]
  else
    pyRangeStep (maxApps + 1) (max 1 (pyRound5 maxApps))

/-! ## Day buckets and the calendar grid (`plot_interactive_calendar`) -/

/-- Month abbreviation produced by `strftime("%b")` (C locale). -/
def monthAbbrev (m : Nat) : String :=
  match m with
  | 1 => "Jan" | 2 => "Feb" | 3 => "Mar" | 4 => "Apr" | 5 => "May"
  | 6 => "Jun" | 7 => "Jul" | 8 => "Aug" | 9 => "Sep" | 10 => "Oct"
  | 11 => "Nov" | _ => "Dec"

/-- `df.groupby("Date_Only").size()` (line 270): one bucket per distinct
date, holding the number of records on that date.  pandas lists the group
keys in sorted order; none of the verified properties depend on the bucket
order, so the first-occurrence order of `dedup` is used. -/
def byDate (dates : List Date) : List (Date × Nat) :=
  dates.dedup.map (fun d => (d, dates.count d))

/-- The aggregated count of the (month, weekday) cell `(mo, wd)`: the sum of
the day-bucket counts whose date falls on that month and weekday (the
`groupby(["Month_Num", "Month", "Day_Num"]).sum()` of line 276; the `Month`
label is a function of `Month_Num`, so the key is the pair). -/
def aggCount (dates : List Date) (mo wd : Nat) : Nat :=
  (((byDate dates).filter
      (fun p => decide ((p.1.month, pyWeekday p.1) = (mo, wd)))).map
    (fun p => p.2)).sum

/-- The distinct months present in the data, sorted ascending
(`all_months`, lines 283-288). -/
def allMonths (dates : List Date) : List Nat :=
  (((byDate dates).map (fun p => p.1.month)).dedup).insertionSort (· ≤ ·)

/-- One cell of the dense month × weekday grid.  `monthNum`/`monthLabel` are
options because the `how="outer"` merge of line 292 keeps the seven weekday
rows even when `all_months` is empty, leaving their month columns NaN. -/
structure GridCell where
  monthNum : Option Nat
  monthLabel : Option String
  dayNum : Nat
  applications : Nat
deriving DecidableEq

/-- The grid rows produced by lines 290-297: the cross join of `all_months`
with the seven weekdays, left-merged with the aggregated counts and
NaN-filled with 0.  When `all_months` is empty the full outer merge on the
constant key keeps the seven unmatched weekday rows with NaN months. -/
def gridCells (dates : List Date) : List GridCell :=
  if allMonths dates = [] then
    (List.range 7).map (fun wd => ⟨none, none, wd, 0⟩)
  else
    (allMonths dates).flatMap (fun mo =>
      (List.range 7).map (fun wd =>
        ⟨some mo, some (monthAbbrev mo), wd, aggCount dates mo wd⟩))

/-- `int(grid["Applications"].max())` (line 299).  The grid is never empty
(seven weekday rows survive even with no months), so the pandas maximum of
its `Applications` column is the maximum of the list, with 0 as the fold
base (all counts are at least 0). -/
def maxApps (dates : List Date) : Nat :=
  ((gridCells dates).map (fun c => c.applications)).foldr max 0

/-- The legend ticks the chart is given for input `dates`. -/
def legendTicksOf (dates : List Date) : List Nat :=
  legendTicks (maxApps dates)

/-! ## Window aggregation (`render_dashboard`) -/

/-- The per-day counts `daily_counts = df.groupby("Date_Only").size()`
(line 433), as a bare list of counts. -/
def dailyCounts (dates : List Date) : List Nat :=
  (byDate dates).map (fun p => p.2)

/-- Round-half-even of the exact rational `s / k` (Python `round` on the
float `daily_counts.mean()`; the numbers are small enough that the float
mean is the correctly-rounded exact mean, and exact ties `q + 1/2` are
representable, so banker's rounding acts on the exact value). -/
def pyRoundRat (s k : Nat) : Nat :=
  if 2 * (s % k) < k then s / k
  else if k < 2 * (s % k) then s / k + 1
  else if s / k % 2 = 0 then s / k else s / k + 1

/-- `avg_per_day = int(round(daily_counts.mean())) if not daily_counts.empty
else 0` (line 434). -/
def avgPerDay (dates : List Date) : Nat :=
  if dailyCounts dates = [] then 0
  else pyRoundRat (dailyCounts dates).sum (dailyCounts dates).length

/-- Python date comparison `a <= b`: lexicographic on (year, month, day). -/
def dateLe (a b : Date) : Bool :=
  decide (a.year < b.year ∨ (a.year = b.year ∧
    (a.month < b.month ∨ (a.month = b.month ∧ a.day ≤ b.day))))

/-- The calendar predecessor of a date: the observable effect of Python's
`some_date - datetime.timedelta(days=1)` on a valid date. -/
def Date.pred (d : Date) : Date :=
  if 2 ≤ d.day then ⟨d.year, d.month, d.day - 1⟩
  else if 2 ≤ d.month then ⟨d.year, d.month - 1, daysInMonth d.year (d.month - 1)⟩
  else ⟨d.year - 1, 12, 31⟩

/-- `today.replace(day=1)` (line 449). -/
def replaceDay1 (d : Date) : Date := ⟨d.year, d.month, 1⟩

/-- The four options of the `Select Time Range` box (line 455). -/
inductive RangeMode where
  | last2Weeks | thisMonth | lastMonth | allTime
deriving DecidableEq

/-- The date-range filter of lines 449-465: `two_weeks_ago = today -
timedelta(days=14)`, `start_of_this_month = today.replace(day=1)`,
`end_of_last_month = start_of_this_month - timedelta(days=1)`,
`start_of_last_month = end_of_last_month.replace(day=1)`, then the
selected comparison on `Date_Only`. -/
def filterByRange (dates : List Date) (mode : RangeMode) (today : Date) :
    List Date :=
  match mode with
  | .last2Weeks => dates.filter (fun d => dateLe (Date.pred^[14] today) d)
  | .thisMonth => dates.filter (fun d => dateLe (replaceDay1 today) d)
  | .lastMonth =>
      let endOfLastMonth := Date.pred (replaceDay1 today)
      let startOfLastMonth := replaceDay1 endOfLastMonth
      dates.filter (fun d => dateLe startOfLastMonth d && dateLe d endOfLastMonth)
  | .allTime => dates

/-- Modelled from the spec's words for claim C7: the first day of the
calendar month preceding `t`'s month, by calendar-month arithmetic. -/
def firstOfPrevMonth (t : Date) : Date :=
  if t.month = 1 then ⟨t.year - 1, 12, 1⟩ else ⟨t.year, t.month - 1, 1⟩

/-- Modelled from the spec's words for claim C7: the last day of the
calendar month preceding `t`'s month, by calendar-month arithmetic. -/
def lastOfPrevMonth (t : Date) : Date :=
  if t.month = 1 then ⟨t.year - 1, 12, 31⟩
  else ⟨t.year, t.month - 1, daysInMonth t.year (t.month - 1)⟩

/-! ## IEEE binary64 model (exact, integer arithmetic)

Python evaluates `(count_weekly_apps / weekly_goal) * 100` in IEEE-754
binary64: the quotient of the two ints is correctly rounded to 53
significant bits (round-to-nearest, ties-to-even; CPython's
`long_true_divide` rounds the exact quotient), the product with 100 is
again correctly rounded, and `int()` truncates.  The program's values are
far from overflow and underflow, so binary64 is exactly "round the exact
rational to 53 significant bits", which the functions below implement with
unbounded mantissa/exponent integers.  This model was checked against
CPython on all pairs `c ∈ [0,400] × g ∈ [1,120]` and assorted large
values; it reproduces `int((29/100)*100) = 28`. -/

/-- Worker for `natLog2`: structural fuel recursion so the kernel can
evaluate it. -/
def natLog2Fuel : Nat → Nat → Nat
  | 0, _ => 0
  | f + 1, n => if n < 2 then 0 else natLog2Fuel f (n / 2) + 1

/-- Floor of the base-2 logarithm of a positive natural. -/
def natLog2 (n : Nat) : Nat := natLog2Fuel n n

/-- Whether the rational `a / b` is smaller than `2 ^ k`, by
cross-multiplication. -/
def qLtPow2 (a b : Nat) (k : Int) : Bool :=
  if 0 ≤ k then decide (a < 2 ^ k.toNat * b) else decide (a * 2 ^ (-k).toNat < b)

/-- Floor of the base-2 logarithm of the positive rational `a / b`. -/
def qlog2 (a b : Nat) : Int :=
  if qLtPow2 a b ((natLog2 a : Int) - (natLog2 b : Int))
  then (natLog2 a : Int) - (natLog2 b : Int) - 1
  else (natLog2 a : Int) - (natLog2 b : Int)

/-- Round-half-even of `(a / b) * 2 ^ t`, as an integer. -/
def scaledRne (a b : Nat) (t : Int) : Nat :=
  if 0 ≤ t then pyRoundRat (a * 2 ^ t.toNat) b
  else pyRoundRat a (b * 2 ^ (-t).toNat)

/-- The binary64 value nearest to `a / b`, as a mantissa/exponent pair
`(m, e)` whose value is `m * 2 ^ e` (53-significant-bit rounding,
unbounded exponent). -/
def flMantExp (a b : Nat) : Nat × Int :=
  (scaledRne a b (52 - qlog2 a b), qlog2 a b - 52)

/-- The binary64 value nearest to `100 * m * 2 ^ e`: the float product of
`fl(count/goal)` with the int `100`. -/
def flSecond (p : Nat × Int) : Nat × Int :=
  if 0 ≤ p.2 then flMantExp (100 * p.1 * 2 ^ p.2.toNat) 1
  else flMantExp (100 * p.1) (2 ^ (-p.2).toNat)

/-- Python `int()` of the non-negative value `m * 2 ^ e`. -/
def floorDyadic (m : Nat) (e : Int) : Nat :=
  if 0 ≤ e then m * 2 ^ e.toNat else m / 2 ^ (-e).toNat

/-- `int((c / g) * 100)` exactly as binary64 computes it, for `0 < g`. -/
def pyPercent (c g : Nat) : Nat :=
  if c = 0 then 0
  else floorDyadic (flSecond (flMantExp c g)).1 (flSecond (flMantExp c g)).2

/-- `2 ^ k` as a rational, for an integer exponent: the value of one unit
in the last place scale step of the model above (proof-side bridge between
the integer representation and exact rational values). -/
def pow2z (k : Int) : ℚ :=
  if 0 ≤ k then ((2 ^ k.toNat : Nat) : ℚ)
  else ((2 ^ (-k).toNat : Nat) : ℚ)⁻¹

/-! ## Goal tracker (`render_more_analysis`, lines 514-528) -/

/-- `weekly_apps = df[df["Year_Week"] == current_year_week]` followed by
`len` (lines 517-518): the records whose strftime week key equals the
f-string week key of `today`. -/
def currentWeekCount (dates : List Date) (today : Date) : Nat :=
  (dates.filter (fun d => strfYearWeek d == fstrYearWeek today)).length

/-- Lines 521-522: `progress_percent = int((count / goal) * 100) if
weekly_goal > 0 else 0` then `min(progress_percent, 100)`, with the float
arithmetic modelled bit-exactly by `pyPercent`. -/
def progressPercent (count : Nat) (goal : Int) : Int :=
  min (if 0 < goal then (pyPercent count goal.toNat : Int) else 0) 100

/-- The weekly goal progress for a record set and reference date. -/
def currentWeekProgress (dates : List Date) (goal : Int) (today : Date) : Int :=
  progressPercent (currentWeekCount dates today) goal

/-- The distinct `Year_Week` keys of the records. -/
def weekKeys (dates : List Date) : List String :=
  (dates.map strfYearWeek).dedup

/-- Python's `<` on character sequences: lexicographic comparison of code
points, a proper prefix being smaller.  This is the string order pandas
`sort_values` applies to an object column of `str` keys. -/
def charListLt : List Char → List Char → Bool
  | [], [] => false
  | [], _ :: _ => true
  | _ :: _, [] => false
  | a :: s, b :: t =>
      if a.toNat < b.toNat then true
      else if b.toNat < a.toNat then false
      else charListLt s t

/-- Python string `<`. -/
def pyStrLt (a b : String) : Bool := charListLt a.data b.data

/-- Python string `<=` (`a <= b` iff not `b < a`). -/
def pyStrLe (a b : String) : Bool := !(pyStrLt b a)

/-- Line 528 generalized over the `head` limit:
`df.groupby("Year_Week").size()` then `.sort_values("Year_Week",
ascending=False).head(limit)`.  Keys are unique after grouping, so the
descending sort of the distinct keys by Python string order determines the
rows. -/
def weeklyHistory (dates : List Date) (limit : Nat) : List (String × Nat) :=
  (((weekKeys dates).insertionSort (fun a b => pyStrLe b a = true)).map
    (fun k => (k, (dates.map strfYearWeek).count k))).take limit

/-- The source's `weekly_summary` (line 528): history truncated to 5 rows. -/
def weeklySummary (dates : List Date) : List (String × Nat) :=
  weeklyHistory dates 5

/-! ## Claim C1: legend tick generation -/

lemma pyRangeStep_eq (m step : Nat) (h : 0 < step) :
    pyRangeStep (m + 1) step = (List.range (m / step + 1)).map (· * step) := by
  unfold pyRangeStep
  congr 1
  have h2 : m + 1 + step - 1 = m + step := by omega
  rw [h2, Nat.add_div_right _ h]

lemma getLast?_multiples (k step : Nat) :
    ((List.range (k + 1)).map (· * step)).getLast? = some (k * step) := by
  rw [List.range_succ, List.map_append]
  simp

lemma legendTicks_of_gt (m : Nat) (h : 7 < m) :
    legendTicks m =
      (List.range (m / max 1 (pyRound5 m) + 1)).map (· * max 1 (pyRound5 m))
        ++ (if m / max 1 (pyRound5 m) * max 1 (pyRound5 m) = m then []
            else [m]) := by
  have hstep : 0 < max 1 (pyRound5 m) := by omega
  unfold legendTicks
  rw [if_neg (by omega), pyRangeStep_eq _ _ hstep,
    List.getLastD_eq_getLast?, getLast?_multiples]
  by_cases hc : m / max 1 (pyRound5 m) * max 1 (pyRound5 m) = m
  · rw [if_neg (by simp [hc]), if_pos hc, List.append_nil]
  · rw [if_pos (by simp [hc]), if_neg hc]

/-- Claim C1: legend ticks follow the spec's generation rule — every
integer from 0 to `maxCount` when `maxCount ≤ 7`, otherwise the multiples
of `step = max 1 (round (maxCount / 5))` up to the largest multiple not
exceeding `maxCount` with `maxCount` appended when that multiple falls
short — so the ticks always start at 0 and end at `maxCount`; in
particular `maxCount = 7` gives `[0..7]` and `maxCount = 23` gives
`[0,5,10,15,20,23]`. -/
theorem legend_tick_generation (m : Nat) :
    (m ≤ 7 → legendTicks m = List.range (m + 1))
  ∧ (7 < m →
      legendTicks m =
        (List.range (m / max 1 (pyRound5 m) + 1)).map (· * max 1 (pyRound5 m))
          ++ (if m / max 1 (pyRound5 m) * max 1 (pyRound5 m) = m then []
              else [m]))
  ∧ (legendTicks m).head? = some 0
  ∧ (legendTicks m).getLast? = some m
  ∧ legendTicks 7 = [0, 1, 2, 3, 4, 5, 6, 7]
  ∧ legendTicks 23 = [0, 5, 10, 15, 20, 23] := by
  refine ⟨fun h => by unfold legendTicks; rw [if_pos h],
    legendTicks_of_gt m, ?_, ?_, by decide, by decide⟩
  · by_cases h : m ≤ 7
    · unfold legendTicks
      rw [if_pos h, List.range_succ_eq_map]
      simp
    · rw [legendTicks_of_gt m (by omega), List.range_succ_eq_map]
      simp
  · by_cases h : m ≤ 7
    · unfold legendTicks
      rw [if_pos h, List.range_succ]
      simp
    · rw [legendTicks_of_gt m (by omega)]
      by_cases hc : m / max 1 (pyRound5 m) * max 1 (pyRound5 m) = m
      · rw [if_pos hc, List.append_nil, getLast?_multiples, hc]
      · rw [if_neg hc]
        simp

/-- Witness for C1: the `maxCount = 23` instance of the stepped branch. -/
theorem legend_tick_generation_witness :
    7 < 23 ∧ legendTicks 23 =
      (List.range (23 / max 1 (pyRound5 23) + 1)).map (· * max 1 (pyRound5 23))
        ++ (if 23 / max 1 (pyRound5 23) * max 1 (pyRound5 23) = 23 then []
            else [23]) :=
  ⟨by decide, (legend_tick_generation 23).2.1 (by decide)⟩

/-! ## Claims C4 and C6: goal progress and average per day -/


lemma sum_map_add' {α : Type} (f g : α → Nat) (l : List α) :
    (l.map (fun x => f x + g x)).sum = (l.map f).sum + (l.map g).sum := by
  induction l with
  | nil => simp
  | cons b M ih =>
    simp [ih]
    omega

lemma sum_map_ite_count {α : Type} [DecidableEq α] (a : α) (L : List α) :
    (L.map (fun x => if x = a then 1 else 0)).sum = L.count a := by
  induction L with
  | nil => simp
  | cons b t ih =>
    simp only [List.map_cons, List.sum_cons, ih]
    by_cases h : b = a
    · subst h
      rw [List.count_cons_self, if_pos rfl]
      omega
    · rw [List.count_cons_of_ne (Ne.symm h), if_neg h]
      omega

lemma sum_dedup_count {α : Type} [DecidableEq α] (l : List α) :
    (l.dedup.map (fun x => l.count x)).sum = l.length := by
  induction l with
  | nil => simp
  | cons a t ih =>
    have hsplit : ∀ x, (a :: t).count x = t.count x + (if x = a then 1 else 0) := by
      intro x
      by_cases hx : x = a
      · subst hx
        rw [List.count_cons_self, if_pos rfl]
      · rw [List.count_cons_of_ne hx, if_neg hx]
        omega
    by_cases h : a ∈ t
    · rw [List.dedup_cons_of_mem h]
      simp only [hsplit]
      rw [sum_map_add' _ _ _, ih, sum_map_ite_count, List.count_dedup, if_pos h]
      simp
    · rw [List.dedup_cons_of_not_mem h]
      simp only [List.map_cons, List.sum_cons, hsplit]
      rw [sum_map_add' _ _ _, ih, sum_map_ite_count, List.count_dedup, if_neg h,
        List.count_eq_zero_of_not_mem h]
      simp
      omega

lemma pyRoundRat_nearest (s k : Nat) (hk : 0 < k) :
    (2 * ((s : Int) - (pyRoundRat s k : Int) * k)).natAbs ≤ k := by
  have hq := Nat.div_add_mod s k
  have hr := Nat.mod_lt s hk
  have hs : (s : Int) = (k : Int) * ((s / k : Nat) : Int) + ((s % k : Nat) : Int) := by
    exact_mod_cast hq.symm
  unfold pyRoundRat
  split_ifs with h1 h2 h3
  · rw [show (s : Int) - ((s / k : Nat) : Int) * (k : Int) = ((s % k : Nat) : Int) by
      linear_combination hs]
    omega
  · rw [show (s : Int) - ((s / k + 1 : Nat) : Int) * (k : Int)
        = ((s % k : Nat) : Int) - (k : Int) by push_cast; push_cast at hs; linear_combination hs]
    omega
  · rw [show (s : Int) - ((s / k : Nat) : Int) * (k : Int) = ((s % k : Nat) : Int) by
      linear_combination hs]
    omega
  · rw [show (s : Int) - ((s / k + 1 : Nat) : Int) * (k : Int)
        = ((s % k : Nat) : Int) - (k : Int) by push_cast; push_cast at hs; linear_combination hs]
    omega

lemma natLog2Fuel_small (f n : Nat) (h : n < 2) : natLog2Fuel f n = 0 := by
  cases f with
  | zero => rfl
  | succ g => rw [natLog2Fuel, if_pos h]

lemma natLog2Fuel_congr (n : Nat) : ∀ f1 f2 : Nat, n ≤ f1 → n ≤ f2 →
    natLog2Fuel f1 n = natLog2Fuel f2 n := by
  induction n using Nat.strong_induction_on with
  | _ n ih =>
    intro f1 f2 h1 h2
    by_cases h : n < 2
    · rw [natLog2Fuel_small _ _ h, natLog2Fuel_small _ _ h]
    · obtain ⟨g1, rfl⟩ : ∃ g, f1 = g + 1 := ⟨f1 - 1, by omega⟩
      obtain ⟨g2, rfl⟩ : ∃ g, f2 = g + 1 := ⟨f2 - 1, by omega⟩
      rw [natLog2Fuel, natLog2Fuel, if_neg h, if_neg h]
      have hdiv : n / 2 < n := Nat.div_lt_self (by omega) (by omega)
      rw [ih (n / 2) hdiv g1 g2 (by omega) (by omega)]

lemma natLog2_eq (n : Nat) :
    natLog2 n = if n < 2 then 0 else natLog2 (n / 2) + 1 := by
  by_cases h : n < 2
  · rw [if_pos h]
    exact natLog2Fuel_small _ _ h
  · rw [if_neg h]
    obtain ⟨g, hg⟩ : ∃ g, n = g + 1 := ⟨n - 1, by omega⟩
    unfold natLog2
    rw [hg, natLog2Fuel, if_neg (hg ▸ h)]
    congr 1
    rw [natLog2Fuel_congr ((g + 1) / 2) g ((g + 1) / 2) (by omega) le_rfl]

lemma natLog2_bounds (n : Nat) (h : 0 < n) :
    2 ^ natLog2 n ≤ n ∧ n < 2 ^ (natLog2 n + 1) := by
  induction n using Nat.strong_induction_on with
  | _ n ih =>
    by_cases h2 : n < 2
    · rw [natLog2_eq, if_pos h2]
      norm_num
      omega
    · rw [natLog2_eq, if_neg h2]
      have hdiv : n / 2 < n := Nat.div_lt_self (by omega) (by omega)
      have ihd := ih (n / 2) hdiv (by omega)
      have e1 : 2 ^ (natLog2 (n / 2) + 1) = 2 * 2 ^ natLog2 (n / 2) := by ring
      have e2 : 2 ^ (natLog2 (n / 2) + 1 + 1) = 2 * 2 ^ (natLog2 (n / 2) + 1) := by
        ring
      omega

lemma pow2z_eq (k : Int) : pow2z k = (2 : ℚ) ^ k := by
  unfold pow2z
  split_ifs with h
  · push_cast
    rw [← zpow_natCast, Int.toNat_of_nonneg h]
  · push_cast
    rw [← zpow_natCast, ← zpow_neg, Int.toNat_of_nonneg (by omega : (0:ℤ) ≤ -k),
      neg_neg]

lemma pow2z_pos (k : Int) : 0 < pow2z k := by
  rw [pow2z_eq]
  exact zpow_pos (by norm_num) k

lemma pow2z_add (i j : Int) : pow2z (i + j) = pow2z i * pow2z j := by
  rw [pow2z_eq, pow2z_eq, pow2z_eq, zpow_add₀ (by norm_num : (2:ℚ) ≠ 0)]

lemma pyRoundRat_bounds (s k : Nat) (hk : 0 < k) :
    (s : ℚ) / k - 1 / 2 ≤ (pyRoundRat s k : ℚ)
    ∧ (pyRoundRat s k : ℚ) ≤ (s : ℚ) / k + 1 / 2 := by
  have h := pyRoundRat_nearest s k hk
  have h1 : -(k : ℤ) ≤ 2 * ((s : ℤ) - (pyRoundRat s k : ℤ) * k) := by omega
  have h2 : 2 * ((s : ℤ) - (pyRoundRat s k : ℤ) * k) ≤ k := by omega
  have hkq : (0 : ℚ) < (k : ℚ) := by exact_mod_cast hk
  have h1' : -(k : ℚ) ≤ 2 * ((s : ℚ) - (pyRoundRat s k : ℚ) * k) := by
    exact_mod_cast h1
  have h2' : 2 * ((s : ℚ) - (pyRoundRat s k : ℚ) * k) ≤ (k : ℚ) := by
    exact_mod_cast h2
  constructor
  · rw [sub_le_iff_le_add, div_le_iff₀ hkq]
    nlinarith [h2', hkq]
  · rw [← sub_le_iff_le_add, le_div_iff₀ hkq]
    nlinarith [h1', hkq]

lemma qLtPow2_iff (a b : Nat) (k : Int) (hb : 0 < b) :
    qLtPow2 a b k = true ↔ (a : ℚ) / b < pow2z k := by
  have hbq : (0 : ℚ) < (b : ℚ) := by exact_mod_cast hb
  unfold qLtPow2
  split_ifs with h
  · rw [decide_eq_true_eq, div_lt_iff₀ hbq, pow2z, if_pos h]
    constructor
    · intro hh
      exact_mod_cast hh
    · intro hh
      exact_mod_cast hh
  · rw [decide_eq_true_eq, div_lt_iff₀ hbq, pow2z, if_neg h,
      inv_mul_eq_div, lt_div_iff₀ (by positivity : (0:ℚ) < ((2 ^ (-k).toNat : Nat) : ℚ))]
    constructor
    · intro hh
      exact_mod_cast hh
    · intro hh
      exact_mod_cast hh

lemma qlog2_bounds (a b : Nat) (ha : 0 < a) (hb : 0 < b) :
    pow2z (qlog2 a b) ≤ (a : ℚ) / b ∧ (a : ℚ) / b < pow2z (qlog2 a b + 1) := by
  have hbq : (0 : ℚ) < (b : ℚ) := by exact_mod_cast hb
  have hla := natLog2_bounds a ha
  have hlb := natLog2_bounds b hb
  have hA2 : (a : ℚ) < 2 ^ (natLog2 a + 1) := by exact_mod_cast hla.2
  have hA1 : (2 : ℚ) ^ natLog2 a ≤ (a : ℚ) := by exact_mod_cast hla.1
  have hB1 : (2 : ℚ) ^ natLog2 b ≤ (b : ℚ) := by exact_mod_cast hlb.1
  have hB2 : (b : ℚ) < 2 ^ (natLog2 b + 1) := by exact_mod_cast hlb.2
  have hzn : ∀ n : Nat, (2 : ℚ) ^ (n : ℤ) = (2 : ℚ) ^ n := fun n => zpow_natCast 2 n
  have hupper : (a : ℚ) / b < pow2z ((natLog2 a : Int) - natLog2 b + 1) := by
    rw [pow2z_eq, div_lt_iff₀ hbq]
    calc (a : ℚ) < 2 ^ (natLog2 a + 1) := hA2
      _ = (2:ℚ) ^ ((natLog2 a : Int) - natLog2 b + 1) * (2:ℚ) ^ ((natLog2 b : Int)) := by
          rw [← zpow_add₀ (by norm_num : (2:ℚ) ≠ 0)]
          rw [show (natLog2 a : Int) - natLog2 b + 1 + natLog2 b
            = ((natLog2 a + 1 : Nat) : Int) by push_cast; ring]
          rw [zpow_natCast]
      _ ≤ (2:ℚ) ^ ((natLog2 a : Int) - natLog2 b + 1) * b := by
          have hp : (0:ℚ) < (2:ℚ) ^ ((natLog2 a : Int) - natLog2 b + 1) :=
            zpow_pos (by norm_num) _
          rw [hzn (natLog2 b)]
          exact mul_le_mul_of_nonneg_left hB1 hp.le
  have hlower : pow2z ((natLog2 a : Int) - natLog2 b - 1) < (a : ℚ) / b := by
    rw [pow2z_eq, lt_div_iff₀ hbq]
    calc (2:ℚ) ^ ((natLog2 a : Int) - natLog2 b - 1) * b
        < (2:ℚ) ^ ((natLog2 a : Int) - natLog2 b - 1) * 2 ^ (natLog2 b + 1) := by
          have hp : (0:ℚ) < (2:ℚ) ^ ((natLog2 a : Int) - natLog2 b - 1) :=
            zpow_pos (by norm_num) _
          exact mul_lt_mul_of_pos_left hB2 hp
      _ = (2:ℚ) ^ natLog2 a := by
          rw [← hzn (natLog2 b + 1), ← zpow_add₀ (by norm_num : (2:ℚ) ≠ 0)]
          rw [show (natLog2 a : Int) - natLog2 b - 1 + (natLog2 b + 1 : Nat)
            = ((natLog2 a : Nat) : Int) by push_cast; ring]
          rw [zpow_natCast]
      _ ≤ (a : ℚ) := hA1
  unfold qlog2
  split_ifs with hq
  · refine ⟨?_, ?_⟩
    · exact le_of_lt (by
        rw [show (natLog2 a : Int) - natLog2 b - 1
          = (natLog2 a : Int) - natLog2 b - 1 from rfl]
        exact hlower)
    · rw [show (natLog2 a : Int) - natLog2 b - 1 + 1
        = (natLog2 a : Int) - natLog2 b by ring]
      exact (qLtPow2_iff a b _ hb).mp hq
  · refine ⟨?_, hupper⟩
    have := (qLtPow2_iff a b ((natLog2 a : Int) - natLog2 b) hb).not.mp
      (by simpa using hq)
    exact not_lt.mp this

lemma scaledRne_bounds (a b : Nat) (t : Int) (hb : 0 < b) :
    (a : ℚ) / b * pow2z t - 1 / 2 ≤ (scaledRne a b t : ℚ)
    ∧ (scaledRne a b t : ℚ) ≤ (a : ℚ) / b * pow2z t + 1 / 2 := by
  unfold scaledRne
  split_ifs with ht
  · have h := pyRoundRat_bounds (a * 2 ^ t.toNat) b hb
    have e : ((a * 2 ^ t.toNat : Nat) : ℚ) / b = (a : ℚ) / b * pow2z t := by
      rw [pow2z, if_pos ht]
      push_cast
      ring
    rw [e] at h
    exact h
  · have hpos : 0 < b * 2 ^ (-t).toNat := by positivity
    have h := pyRoundRat_bounds a (b * 2 ^ (-t).toNat) hpos
    have e : (a : ℚ) / ((b * 2 ^ (-t).toNat : Nat) : ℚ) = (a : ℚ) / b * pow2z t := by
      rw [pow2z, if_neg ht]
      push_cast
      ring
    rw [e] at h
    exact h

lemma flMantExp_bounds (a b : Nat) (ha : 0 < a) (hb : 0 < b) :
    (a : ℚ) / b - (a : ℚ) / b / 2 ^ 52
      ≤ ((flMantExp a b).1 : ℚ) * pow2z (flMantExp a b).2
    ∧ ((flMantExp a b).1 : ℚ) * pow2z (flMantExp a b).2
      ≤ (a : ℚ) / b + (a : ℚ) / b / 2 ^ 52 := by
  have hq := qlog2_bounds a b ha hb
  have hs := scaledRne_bounds a b (52 - qlog2 a b) hb
  have hP : (0 : ℚ) < pow2z (qlog2 a b - 52) := pow2z_pos _
  have hS : (0 : ℚ) < pow2z (52 - qlog2 a b) := pow2z_pos _
  have hPS : pow2z (52 - qlog2 a b) * pow2z (qlog2 a b - 52) = 1 := by
    rw [← pow2z_add, show 52 - qlog2 a b + (qlog2 a b - 52) = 0 by ring]
    norm_num [pow2z]
  have hPr : pow2z (qlog2 a b - 52) ≤ 2 * ((a : ℚ) / b / 2 ^ 52) := by
    have h1 : pow2z (qlog2 a b - 52) = pow2z (qlog2 a b) * pow2z (-52) := by
      rw [← pow2z_add]
      ring_nf
    have h2 : pow2z (-52) = ((2 : ℚ) ^ 52)⁻¹ := by
      rw [pow2z_eq, ← zpow_natCast (2 : ℚ) 52, ← zpow_neg]
      norm_num
    have h3 : pow2z (qlog2 a b) * pow2z (-52) ≤ ((a : ℚ) / b) * pow2z (-52) :=
      mul_le_mul_of_nonneg_right hq.1 (pow2z_pos _).le
    rw [h1]
    refine le_trans h3 ?_
    rw [h2, div_eq_mul_inv ((a:ℚ)/b) ((2:ℚ)^52)]
    nlinarith [mul_nonneg (div_nonneg (Nat.cast_nonneg a) (Nat.cast_nonneg b))
      (inv_nonneg.mpr (by positivity : (0:ℚ) ≤ (2:ℚ) ^ 52))]
  show (a : ℚ) / b - (a : ℚ) / b / 2 ^ 52
      ≤ (scaledRne a b (52 - qlog2 a b) : ℚ) * pow2z (qlog2 a b - 52)
    ∧ (scaledRne a b (52 - qlog2 a b) : ℚ) * pow2z (qlog2 a b - 52)
      ≤ (a : ℚ) / b + (a : ℚ) / b / 2 ^ 52
  constructor
  · have hmul := mul_le_mul_of_nonneg_right hs.1 hP.le
    have e : ((a : ℚ) / b * pow2z (52 - qlog2 a b) - 1 / 2) * pow2z (qlog2 a b - 52)
        = (a : ℚ) / b - pow2z (qlog2 a b - 52) / 2 := by
      have expand : ((a : ℚ) / b * pow2z (52 - qlog2 a b) - 1 / 2)
            * pow2z (qlog2 a b - 52)
          = (a : ℚ) / b * (pow2z (52 - qlog2 a b) * pow2z (qlog2 a b - 52))
            - pow2z (qlog2 a b - 52) / 2 := by ring
      rw [expand, hPS, mul_one]
    rw [e] at hmul
    linarith [hmul, hPr]
  · have hmul := mul_le_mul_of_nonneg_right hs.2 hP.le
    have e : ((a : ℚ) / b * pow2z (52 - qlog2 a b) + 1 / 2) * pow2z (qlog2 a b - 52)
        = (a : ℚ) / b + pow2z (qlog2 a b - 52) / 2 := by
      have expand : ((a : ℚ) / b * pow2z (52 - qlog2 a b) + 1 / 2)
            * pow2z (qlog2 a b - 52)
          = (a : ℚ) / b * (pow2z (52 - qlog2 a b) * pow2z (qlog2 a b - 52))
            + pow2z (qlog2 a b - 52) / 2 := by ring
      rw [expand, hPS, mul_one]
    rw [e] at hmul
    linarith [hmul, hPr]

lemma flMantExp_fst_pos (a b : Nat) (ha : 0 < a) (hb : 0 < b) :
    0 < (flMantExp a b).1 := by
  have hr : (0 : ℚ) < (a : ℚ) / b :=
    div_pos (by exact_mod_cast ha) (by exact_mod_cast hb)
  by_contra h
  have hm0 : (flMantExp a b).1 = 0 := by omega
  have hlow := (flMantExp_bounds a b ha hb).1
  rw [hm0] at hlow
  simp only [Nat.cast_zero, zero_mul] at hlow
  have hlt : (a : ℚ) / b / 2 ^ 52 < (a : ℚ) / b :=
    div_lt_self hr (by norm_num)
  linarith

lemma flSecond_bounds (p : Nat × Int) (hm : 0 < p.1) :
    100 * ((p.1 : ℚ) * pow2z p.2) - 100 * ((p.1 : ℚ) * pow2z p.2) / 2 ^ 52
      ≤ ((flSecond p).1 : ℚ) * pow2z (flSecond p).2
    ∧ ((flSecond p).1 : ℚ) * pow2z (flSecond p).2
      ≤ 100 * ((p.1 : ℚ) * pow2z p.2) + 100 * ((p.1 : ℚ) * pow2z p.2) / 2 ^ 52 := by
  unfold flSecond
  split_ifs with he
  · have h := flMantExp_bounds (100 * p.1 * 2 ^ p.2.toNat) 1 (by positivity) one_pos
    rw [Nat.cast_one, div_one] at h
    have e : ((100 * p.1 * 2 ^ p.2.toNat : Nat) : ℚ)
        = 100 * ((p.1 : ℚ) * pow2z p.2) := by
      rw [pow2z, if_pos he]
      push_cast
      ring
    rw [e] at h
    exact h
  · have hbpos : (0 : Nat) < 2 ^ (-p.2).toNat := by positivity
    have h := flMantExp_bounds (100 * p.1) (2 ^ (-p.2).toNat) (by positivity) hbpos
    have e : ((100 * p.1 : Nat) : ℚ) / ((2 ^ (-p.2).toNat : Nat) : ℚ)
        = 100 * ((p.1 : ℚ) * pow2z p.2) := by
      rw [pow2z, if_neg he]
      push_cast
      ring
    rw [e] at h
    exact h

lemma floor_nat_div (a b : Nat) (hb : 0 < b) :
    ⌊(a : ℚ) / (b : ℚ)⌋ = ((a / b : Nat) : ℤ) := by
  have hbq : (0 : ℚ) < (b : ℚ) := by exact_mod_cast hb
  rw [Int.floor_eq_iff]
  constructor
  · push_cast
    exact Nat.cast_div_le
  · have hnat : a < (a / b + 1) * b := by
      have h1 := Nat.div_add_mod a b
      have h2 := Nat.mod_lt a hb
      calc a = b * (a / b) + a % b := h1.symm
        _ < b * (a / b) + b := by omega
        _ = (a / b + 1) * b := by ring
    rw [div_lt_iff₀ hbq]
    push_cast
    exact_mod_cast hnat

lemma floorDyadic_eq (m : Nat) (e : Int) :
    ((floorDyadic m e : Nat) : ℤ) = ⌊(m : ℚ) * pow2z e⌋ := by
  unfold floorDyadic
  split_ifs with he
  · rw [pow2z, if_pos he,
      show (m : ℚ) * ((2 ^ e.toNat : Nat) : ℚ) = ((m * 2 ^ e.toNat : Nat) : ℚ) by
        push_cast; ring,
      Int.floor_natCast]
  · rw [pow2z, if_neg he,
      show (m : ℚ) * (((2 ^ (-e).toNat : Nat) : ℚ))⁻¹
          = (m : ℚ) / ((2 ^ (-e).toNat : Nat) : ℚ) from (div_eq_mul_inv _ _).symm,
      floor_nat_div m _ (by positivity)]

lemma pyPercent_bounds (c g : Nat) (hg : 0 < g) (hsize : c * 100 ≤ 2 ^ 49 * g) :
    ((c * 100 / g : Nat) : ℤ) - 1 ≤ (pyPercent c g : ℤ)
    ∧ (pyPercent c g : ℤ) ≤ ((c * 100 / g : Nat) : ℤ) + 1 := by
  by_cases hc : c = 0
  · subst hc
    unfold pyPercent
    rw [if_pos rfl]
    norm_num
  · have hc' : 0 < c := Nat.pos_of_ne_zero hc
    have hgq : (0 : ℚ) < (g : ℚ) := by exact_mod_cast hg
    have hrpos : (0 : ℚ) < (c : ℚ) / g :=
      div_pos (by exact_mod_cast hc') hgq
    have h1 := flMantExp_bounds c g hc' hg
    have hm := flMantExp_fst_pos c g hc' hg
    have h2 := flSecond_bounds (flMantExp c g) hm
    set r : ℚ := (c : ℚ) / g with hrdef
    set V : ℚ := ((flMantExp c g).1 : ℚ) * pow2z (flMantExp c g).2 with hV
    set W : ℚ := ((flSecond (flMantExp c g)).1 : ℚ)
      * pow2z (flSecond (flMantExp c g)).2 with hW
    have e52 : (2 : ℚ) ^ 52 = 4503599627370496 := by norm_num
    have e49 : (2 : ℚ) ^ 49 = 562949953421312 := by norm_num
    rw [e52] at h1 h2
    have hrsize : r * 100 ≤ 562949953421312 := by
      rw [hrdef, div_mul_eq_mul_div, div_le_iff₀ hgq]
      calc (c : ℚ) * 100 = ((c * 100 : Nat) : ℚ) := by push_cast; ring
        _ ≤ ((2 ^ 49 * g : Nat) : ℚ) := by exact_mod_cast hsize
        _ = 562949953421312 * g := by push_cast; norm_num
    have hWlow : 100 * r - 1 / 2 ≤ W := by nlinarith [h1.1, h1.2, h2.1, hrpos, hrsize]
    have hWhigh : W ≤ 100 * r + 1 / 2 := by nlinarith [h1.1, h1.2, h2.2, hrpos, hrsize]
    have hfd : (pyPercent c g : ℤ) = ⌊W⌋ := by
      unfold pyPercent
      rw [if_neg hc]
      exact floorDyadic_eq _ _
    have hE : ((c * 100 : Nat) : ℚ) / g = 100 * r := by
      rw [hrdef]
      push_cast
      ring
    have hEfloor : ⌊(100 : ℚ) * r⌋ = ((c * 100 / g : Nat) : ℤ) := by
      rw [← hE]
      exact floor_nat_div (c * 100) g hg
    constructor
    · rw [hfd, ← hEfloor, Int.le_floor]
      push_cast
      have hfl := Int.floor_le ((100 : ℚ) * r)
      linarith
    · rw [hfd, ← hEfloor]
      have hlt : ⌊W⌋ < ⌊(100 : ℚ) * r⌋ + 2 := by
        rw [Int.floor_lt]
        push_cast
        have hfl := Int.lt_floor_add_one ((100 : ℚ) * r)
        linarith
      omega

/-- Claim C4 (amended): the tracker never raises — `goal ≤ 0` yields 0, the
result is always in `[0, 100]` — and for a positive goal the percentage is
the binary64 evaluation of `int((count/goal)*100)` capped at 100, which
stays within one unit of the capped exact floor
`min(100, (count*100)/goal)` whenever `count*100 ≤ 2^49*goal` (which covers
every input the program can see); goal 10 with 12 current-week records
gives 100 and with 3 records gives 30. -/
theorem goal_progress (dates : List Date) (goal : Int) (today : Date) :
    (goal ≤ 0 → currentWeekProgress dates goal today = 0)
  ∧ 0 ≤ currentWeekProgress dates goal today
  ∧ currentWeekProgress dates goal today ≤ 100
  ∧ (0 < goal → currentWeekProgress dates goal today
      = min ((pyPercent (currentWeekCount dates today) goal.toNat : Nat) : Int) 100)
  ∧ (0 < goal → (currentWeekCount dates today : Int) * 100 ≤ 2 ^ 49 * goal →
      min 100 (((currentWeekCount dates today * 100 / goal.toNat : Nat) : ℤ) - 1)
        ≤ currentWeekProgress dates goal today
      ∧ currentWeekProgress dates goal today
        ≤ min 100 (((currentWeekCount dates today * 100 / goal.toNat : Nat) : ℤ) + 1))
  ∧ currentWeekProgress (List.replicate 12 ⟨2024, 1, 1⟩) 10 ⟨2024, 1, 1⟩ = 100
  ∧ currentWeekProgress (List.replicate 3 ⟨2024, 1, 1⟩) 10 ⟨2024, 1, 1⟩ = 30 := by
  refine ⟨?_, ?_, min_le_right _ _, ?_, ?_, ?_, ?_⟩
  · intro hg
    unfold currentWeekProgress progressPercent
    rw [if_neg (by omega)]
    exact min_eq_left (by norm_num)
  · unfold currentWeekProgress progressPercent
    refine le_min ?_ (by norm_num)
    split_ifs with hg
    · exact Int.natCast_nonneg _
    · exact le_refl 0
  · intro hg
    unfold currentWeekProgress progressPercent
    rw [if_pos hg]
  · intro hg hsize
    have hgt : 0 < goal.toNat := by omega
    have hsize' : currentWeekCount dates today * 100 ≤ 2 ^ 49 * goal.toNat := by
      have h2 : ((2 : ℤ) ^ 49 * goal) = ((2 ^ 49 * goal.toNat : Nat) : ℤ) := by
        push_cast
        rw [Int.toNat_of_nonneg hg.le]
      rw [h2] at hsize
      exact_mod_cast hsize
    have hb := pyPercent_bounds (currentWeekCount dates today) goal.toNat hgt hsize'
    unfold currentWeekProgress progressPercent
    rw [if_pos hg]
    constructor
    · calc min 100 (((currentWeekCount dates today * 100 / goal.toNat : Nat) : ℤ) - 1)
          = min (((currentWeekCount dates today * 100 / goal.toNat : Nat) : ℤ) - 1) 100 :=
            min_comm _ _
        _ ≤ min ((pyPercent (currentWeekCount dates today) goal.toNat : Nat) : ℤ) 100 :=
            min_le_min hb.1 le_rfl
    · calc min ((pyPercent (currentWeekCount dates today) goal.toNat : Nat) : ℤ) 100
          ≤ min (((currentWeekCount dates today * 100 / goal.toNat : Nat) : ℤ) + 1) 100 :=
            min_le_min hb.2 le_rfl
        _ = min 100 (((currentWeekCount dates today * 100 / goal.toNat : Nat) : ℤ) + 1) :=
            min_comm _ _
  · have hc : currentWeekCount (List.replicate 12 ⟨2024, 1, 1⟩) ⟨2024, 1, 1⟩ = 12 := by
      decide
    have hp : pyPercent 12 (10 : Int).toNat = 120 := by decide
    unfold currentWeekProgress progressPercent
    rw [hc, if_pos (by norm_num), hp]
    exact min_eq_right (by norm_num)
  · have hc : currentWeekCount (List.replicate 3 ⟨2024, 1, 1⟩) ⟨2024, 1, 1⟩ = 3 := by
      decide
    have hp : pyPercent 3 (10 : Int).toNat = 30 := by decide
    unfold currentWeekProgress progressPercent
    rw [hc, if_pos (by norm_num), hp]
    exact min_eq_left (by norm_num)

/-- Counterexample to claim C4 as stated: at goal 100 with 29 current-week
records the program's binary64 evaluation `int((29/100)*100)` yields 28,
while the claimed `min(100, floor-or-round(29·100/100))` is 29 (floor and
round agree here). -/
theorem goal_progress_cex :
    currentWeekProgress (List.replicate 29 ⟨2024, 1, 1⟩) 100 ⟨2024, 1, 1⟩ = 28
  ∧ min 100 (((29 * 100 / (100 : Int).toNat : Nat) : ℤ)) = 29 := by
  constructor
  · have hc : currentWeekCount (List.replicate 29 ⟨2024, 1, 1⟩) ⟨2024, 1, 1⟩ = 29 := by
      decide
    have hp : pyPercent 29 (100 : Int).toNat = 28 := by decide
    unfold currentWeekProgress progressPercent
    rw [hc, if_pos (by norm_num), hp]
    exact min_eq_left (by norm_num)
  · rw [show ((29 * 100 / (100 : Int).toNat : Nat) : ℤ) = 29 by norm_num]
    exact min_eq_right (by norm_num)

/-- Witness for C4: the within-one bound exercised at goal 10 with 3
current-week records. -/
theorem goal_progress_witness :
    ((0 : ℤ) < 10 ∧ (currentWeekCount (List.replicate 3 ⟨2024, 1, 1⟩) ⟨2024, 1, 1⟩ : ℤ)
        * 100 ≤ 2 ^ 49 * 10)
  ∧ (min 100 (((currentWeekCount (List.replicate 3 ⟨2024, 1, 1⟩) ⟨2024, 1, 1⟩ * 100
          / (10 : Int).toNat : Nat) : ℤ) - 1)
      ≤ currentWeekProgress (List.replicate 3 ⟨2024, 1, 1⟩) 10 ⟨2024, 1, 1⟩
    ∧ currentWeekProgress (List.replicate 3 ⟨2024, 1, 1⟩) 10 ⟨2024, 1, 1⟩
      ≤ min 100 (((currentWeekCount (List.replicate 3 ⟨2024, 1, 1⟩) ⟨2024, 1, 1⟩ * 100
          / (10 : Int).toNat : Nat) : ℤ) + 1)) :=
  ⟨⟨by norm_num, by decide⟩,
    (goal_progress (List.replicate 3 ⟨2024, 1, 1⟩) 10 ⟨2024, 1, 1⟩).2.2.2.2.1
      (by norm_num) (by decide)⟩

lemma dailyCounts_sum (dates : List Date) :
    (dailyCounts dates).sum = dates.length := by
  unfold dailyCounts byDate
  rw [List.map_map]
  exact sum_dedup_count dates

/-- Claim C6 -/
theorem average_per_day (dates : List Date) :
    (dates = [] → avgPerDay dates = 0)
  ∧ (dailyCounts dates).sum = dates.length
  ∧ (dates ≠ [] →
      (2 * ((dates.length : Int) -
        (avgPerDay dates : Int) * (dailyCounts dates).length)).natAbs
        ≤ (dailyCounts dates).length)
  ∧ (∀ d0 : Date, dates ≠ [] → (∀ d ∈ dates, d = d0) →
      avgPerDay dates = dates.length) := by
  refine ⟨?_, dailyCounts_sum dates, ?_, ?_⟩
  · intro h
    subst h
    decide
  · intro h
    have hne : dailyCounts dates ≠ [] := by
      unfold dailyCounts byDate
      simp [List.dedup_eq_nil, h]
    unfold avgPerDay
    rw [if_neg hne, dailyCounts_sum]
    refine pyRoundRat_nearest _ _ ?_
    cases hcc : dailyCounts dates with
    | nil => exact absurd hcc hne
    | cons x xs => simp
  · intro d0 hne hall
    have hlen : dates.length ≠ 0 := by
      cases dates with
      | nil => exact absurd rfl hne
      | cons x xs => simp
    have hrep : dates = List.replicate dates.length d0 :=
      List.eq_replicate_iff.mpr ⟨rfl, hall⟩
    have hdc : dailyCounts dates = [dates.length] := by
      unfold dailyCounts byDate
      rw [List.map_map, hrep, List.replicate_dedup hlen]
      simp
    unfold avgPerDay
    rw [hdc, if_neg (by simp)]
    simp [pyRoundRat, Nat.mod_one, Nat.div_one]

theorem average_per_day_witness :
    ([⟨2024, 1, 1⟩, ⟨2024, 1, 1⟩, ⟨2024, 2, 6⟩] : List Date) ≠ [] ∧
    (2 * ((([⟨2024, 1, 1⟩, ⟨2024, 1, 1⟩, ⟨2024, 2, 6⟩] : List Date).length : Int) -
      (avgPerDay [⟨2024, 1, 1⟩, ⟨2024, 1, 1⟩, ⟨2024, 2, 6⟩] : Int) *
        (dailyCounts [⟨2024, 1, 1⟩, ⟨2024, 1, 1⟩, ⟨2024, 2, 6⟩]).length)).natAbs
      ≤ (dailyCounts [⟨2024, 1, 1⟩, ⟨2024, 1, 1⟩, ⟨2024, 2, 6⟩]).length :=
  ⟨by decide, (average_per_day [⟨2024, 1, 1⟩, ⟨2024, 1, 1⟩, ⟨2024, 2, 6⟩]).2.2.1 (by decide)⟩

/-! ## Claim C7: date-range filter modes -/

lemma pred_replaceDay1 (t : Date) (h : t.Valid) :
    Date.pred (replaceDay1 t) = lastOfPrevMonth t := by
  obtain ⟨hy, hm1, hm12, hd1, hd2⟩ := h
  simp only [replaceDay1, Date.pred, lastOfPrevMonth]
  norm_num
  split_ifs with h1 h2 <;> first | rfl | (exfalso; omega)

lemma replaceDay1_pred_replaceDay1 (t : Date) (h : t.Valid) :
    replaceDay1 (Date.pred (replaceDay1 t)) = firstOfPrevMonth t := by
  rw [pred_replaceDay1 t h]
  unfold lastOfPrevMonth firstOfPrevMonth replaceDay1
  by_cases hm : t.month = 1
  · rw [if_pos hm, if_pos hm]
  · rw [if_neg hm, if_neg hm]

/-- Claim C7 -/
theorem filter_by_range (dates : List Date) (today : Date) (h : today.Valid) :
    filterByRange dates .last2Weeks today =
      dates.filter (fun d => dateLe (Date.pred^[14] today) d)
  ∧ filterByRange dates .thisMonth today =
      dates.filter (fun d => dateLe ⟨today.year, today.month, 1⟩ d)
  ∧ filterByRange dates .lastMonth today =
      dates.filter (fun d => dateLe (firstOfPrevMonth today) d
        && dateLe d (lastOfPrevMonth today))
  ∧ filterByRange dates .allTime today = dates := by
  refine ⟨rfl, rfl, ?_, rfl⟩
  show dates.filter (fun d =>
      dateLe (replaceDay1 (Date.pred (replaceDay1 today))) d
        && dateLe d (Date.pred (replaceDay1 today))) = _
  rw [replaceDay1_pred_replaceDay1 today h, pred_replaceDay1 today h]

theorem filter_by_range_witness :
    (⟨2024, 3, 15⟩ : Date).Valid ∧
    filterByRange [⟨2024, 2, 15⟩, ⟨2024, 3, 2⟩] .lastMonth ⟨2024, 3, 15⟩ =
      [⟨2024, 2, 15⟩, ⟨2024, 3, 2⟩].filter
        (fun d => dateLe (firstOfPrevMonth ⟨2024, 3, 15⟩) d
          && dateLe d (lastOfPrevMonth ⟨2024, 3, 15⟩)) :=
  ⟨by decide, (filter_by_range _ ⟨2024, 3, 15⟩ (by decide)).2.2.1⟩

lemma sum_map_ite_key {κ : Type} [DecidableEq κ] (x : κ) (c : Nat) :
    ∀ pairs : List κ, pairs.Nodup → x ∈ pairs →
    (pairs.map (fun k => if x = k then c else 0)).sum = c := by
  intro pairs
  induction pairs with
  | nil => intro _ hx; cases hx
  | cons q qs ih =>
    intro hnd hx
    rcases List.mem_cons.mp hx with rfl | hmem
    · have hz : (qs.map (fun k => if x = k then c else 0)).sum = 0 := by
        refine List.sum_eq_zero ?_
        intro v hv
        obtain ⟨k, hk, rfl⟩ := List.mem_map.mp hv
        exact if_neg (by rintro rfl; exact (List.nodup_cons.mp hnd).1 hk)
      rw [List.map_cons, List.sum_cons]
      show (if x = x then c else 0) + _ = c
      rw [if_pos rfl, hz]
      omega
    · have hxq : x ≠ q := by
        rintro rfl
        exact (List.nodup_cons.mp hnd).1 hmem
      simp only [List.map_cons, List.sum_cons, if_neg hxq]
      rw [ih (List.nodup_cons.mp hnd).2 hmem]
      omega

lemma sum_partition {α κ : Type} [DecidableEq κ] (key : α → κ) (wt : α → Nat)
    (pairs : List κ) (hnd : pairs.Nodup) :
    ∀ L : List α, (∀ a ∈ L, key a ∈ pairs) →
    (pairs.map (fun k =>
      ((L.filter (fun a => decide (key a = k))).map wt).sum)).sum
      = (L.map wt).sum := by
  intro L
  induction L with
  | nil =>
    intro _
    simp
  | cons b L ih =>
    intro hmem
    have hb : key b ∈ pairs := hmem b (List.mem_cons_self b L)
    have hL : ∀ a ∈ L, key a ∈ pairs := fun a ha => hmem a (List.mem_cons_of_mem b ha)
    have hstep : ∀ k : κ,
        (((b :: L).filter (fun a => decide (key a = k))).map wt).sum
          = (if key b = k then wt b else 0)
            + ((L.filter (fun a => decide (key a = k))).map wt).sum := by
      intro k
      by_cases hk : key b = k <;> simp [List.filter_cons, hk]
    simp only [hstep]
    rw [sum_map_add' _ _ pairs, sum_map_ite_key (key b) (wt b) pairs hnd hb, ih hL]
    simp

lemma allMonths_eq_nil_iff (dates : List Date) :
    allMonths dates = [] ↔ dates = [] := by
  constructor
  · intro h
    unfold allMonths at h
    have hperm := List.perm_insertionSort (fun a b : Nat => a ≤ b)
      (((byDate dates).map (fun p => p.1.month)).dedup)
    rw [h] at hperm
    have hd : ((byDate dates).map (fun p => p.1.month)).dedup = [] :=
      List.eq_nil_of_length_eq_zero (by simpa using hperm.symm.length_eq)
    have hbd : byDate dates = [] := by
      rw [List.dedup_eq_nil] at hd
      exact List.map_eq_nil_iff.mp hd
    unfold byDate at hbd
    rw [List.map_eq_nil_iff, List.dedup_eq_nil] at hbd
    exact hbd
  · rintro rfl
    rfl

lemma mem_allMonths (dates : List Date) (mo : Nat) :
    mo ∈ allMonths dates ↔ mo ∈ dates.map Date.month := by
  unfold allMonths byDate
  rw [(List.perm_insertionSort _ _).mem_iff, List.mem_dedup, List.map_map]
  constructor
  · intro h
    obtain ⟨d, hd, rfl⟩ := List.mem_map.mp h
    exact List.mem_map.mpr ⟨d, List.mem_dedup.mp hd, rfl⟩
  · intro h
    obtain ⟨d, hd, rfl⟩ := List.mem_map.mp h
    exact List.mem_map.mpr ⟨d, List.mem_dedup.mpr hd, rfl⟩

lemma allMonths_nodup (dates : List Date) : (allMonths dates).Nodup := by
  unfold allMonths
  exact (List.perm_insertionSort _ _).nodup_iff.mpr (List.nodup_dedup _)

lemma monthKey_mem_pairs (dates : List Date) {p : Date × Nat}
    (hp : p ∈ byDate dates) :
    (p.1.month, pyWeekday p.1) ∈ (allMonths dates).flatMap
      (fun mo => (List.range 7).map (fun wd => (mo, wd))) := by
  refine List.mem_flatMap.mpr ⟨p.1.month, ?_, ?_⟩
  · rw [mem_allMonths]
    unfold byDate at hp
    obtain ⟨d, hd, rfl⟩ := List.mem_map.mp hp
    exact List.mem_map.mpr ⟨d, List.mem_dedup.mp hd, rfl⟩
  · exact List.mem_map.mpr ⟨pyWeekday p.1,
      List.mem_range.mpr (Nat.mod_lt _ (by omega)), rfl⟩

lemma monthPairs_nodup (dates : List Date) :
    ((allMonths dates).flatMap
      (fun mo => (List.range 7).map (fun wd => (mo, wd)))).Nodup := by
  refine List.nodup_flatMap.mpr ⟨?_, ?_⟩
  · intro mo _
    exact (List.nodup_range 7).map (fun a b h => by
      simpa using congrArg Prod.snd h)
  · refine (allMonths_nodup dates).imp ?_
    intro a b hab
    intro p hpa hpb
    obtain ⟨wa, _, rfl⟩ := List.mem_map.mp hpa
    obtain ⟨wb, _, hw⟩ := List.mem_map.mp hpb
    exact hab (by simpa using congrArg Prod.fst hw.symm)

/-- Claim C3: the month-by-weekday grid is a lossless re-partition of the
daily counts — for every input, the sum of `Applications` over the grid
cells equals the sum of the day-bucket counts. -/
theorem grid_lossless (dates : List Date) :
    ((gridCells dates).map (fun c => c.applications)).sum
      = ((byDate dates).map (fun p => p.2)).sum := by
  by_cases hM : allMonths dates = []
  · have hd : dates = [] := (allMonths_eq_nil_iff dates).mp hM
    subst hd
    decide
  · rw [← sum_partition (fun p : Date × Nat => (p.1.month, pyWeekday p.1))
      (fun p => p.2)
      ((allMonths dates).flatMap (fun mo => (List.range 7).map (fun wd => (mo, wd))))
      (monthPairs_nodup dates) (byDate dates)
      (fun a ha => monthKey_mem_pairs dates ha)]
    unfold gridCells
    rw [if_neg hM]
    simp only [List.map_flatMap, List.map_map]
    rfl

lemma sum_map_const_nat {α : Type} (l : List α) (c : Nat) :
    (l.map (fun _ => c)).sum = l.length * c := by
  induction l with
  | nil => simp
  | cons a t ih =>
    simp only [List.map_cons, List.sum_cons, List.length_cons, ih]
    ring

/-- Claim C2 (amended to non-empty inputs): the grid cells are exactly the
cross product of the distinct months present in the input with the seven
weekdays, each pair exactly once, `length = months × 7`, and a pair with no
contributing date has count 0. -/
theorem grid_cross_product (dates : List Date) (hne : dates ≠ []) :
    (gridCells dates).map (fun c => (c.monthNum, c.dayNum))
      = (allMonths dates).flatMap
          (fun mo => (List.range 7).map (fun wd => (some mo, wd)))
  ∧ ((gridCells dates).map (fun c => (c.monthNum, c.dayNum))).Nodup
  ∧ (gridCells dates).length = (allMonths dates).length * 7
  ∧ (∀ mo : Nat, mo ∈ allMonths dates ↔ mo ∈ dates.map Date.month)
  ∧ (∀ c ∈ gridCells dates,
      (∀ d ∈ dates, ¬ (some d.month = c.monthNum ∧ pyWeekday d = c.dayNum)) →
      c.applications = 0) := by
  have hM : allMonths dates ≠ [] := fun h => hne ((allMonths_eq_nil_iff dates).mp h)
  have hkeys : (gridCells dates).map (fun c => (c.monthNum, c.dayNum))
      = (allMonths dates).flatMap
          (fun mo => (List.range 7).map (fun wd => (some mo, wd))) := by
    unfold gridCells
    rw [if_neg hM]
    simp only [List.map_flatMap, List.map_map]
    rfl
  refine ⟨hkeys, ?_, ?_, mem_allMonths dates, ?_⟩
  · rw [hkeys]
    refine List.nodup_flatMap.mpr ⟨?_, ?_⟩
    · intro mo _
      exact (List.nodup_range 7).map (fun a b h => by
        simpa using congrArg Prod.snd h)
    · refine (allMonths_nodup dates).imp ?_
      intro a b hab
      intro p hpa hpb
      obtain ⟨wa, _, rfl⟩ := List.mem_map.mp hpa
      obtain ⟨wb, _, hw⟩ := List.mem_map.mp hpb
      exact hab (by simpa using congrArg Prod.fst hw.symm)
  · unfold gridCells
    rw [if_neg hM, List.length_flatMap]
    refine Eq.trans (congrArg List.sum (List.map_congr_left ?_))
      (sum_map_const_nat (allMonths dates) 7)
    intro mo _
    simp [Function.comp]
  · intro c hc hno
    unfold gridCells at hc
    rw [if_neg hM] at hc
    obtain ⟨mo, hmo, hcc⟩ := List.mem_flatMap.mp hc
    obtain ⟨wd, hwd, rfl⟩ := List.mem_map.mp hcc
    show aggCount dates mo wd = 0
    unfold aggCount
    have hfil : (byDate dates).filter
        (fun p => decide ((p.1.month, pyWeekday p.1) = (mo, wd))) = [] := by
      rw [List.filter_eq_nil_iff]
      intro p hp
      simp only [decide_eq_true_eq, Prod.mk.injEq, not_and]
      intro hpm hpw
      have hpd : p.1 ∈ dates := by
        unfold byDate at hp
        obtain ⟨d, hd, rfl⟩ := List.mem_map.mp hp
        exact List.mem_dedup.mp hd
      exact hno p.1 hpd ⟨by rw [hpm], hpw⟩
    rw [hfil]
    rfl

theorem grid_cross_product_witness :
    ([⟨2024, 1, 1⟩, ⟨2024, 2, 6⟩] : List Date) ≠ [] ∧
    (gridCells [⟨2024, 1, 1⟩, ⟨2024, 2, 6⟩]).length
      = (allMonths [⟨2024, 1, 1⟩, ⟨2024, 2, 6⟩]).length * 7 :=
  ⟨by decide, (grid_cross_product [⟨2024, 1, 1⟩, ⟨2024, 2, 6⟩] (by decide)).2.2.1⟩

/-- Counterexample to claim C2 as stated: on empty input there are zero
distinct months, yet the grid still holds the seven weekday rows the outer
merge keeps, so `len(cells) = 7 ≠ 0 × 7`. -/
theorem grid_cross_product_cex :
    ¬ ((gridCells []).length = (allMonths []).length * 7) := by
  decide

/-- Claim C5 (amended): on empty input the grid is not empty — the outer
merge keeps one row per weekday with a null month and count 0 — while
`legendTicks = [0]` as the claim states; the embedded computation is total. -/
theorem grid_empty_input :
    gridCells [] = (List.range 7).map (fun wd => ⟨none, none, wd, 0⟩)
  ∧ legendTicksOf [] = [0] := by
  constructor
  · decide
  · decide

/-- Counterexample to claim C5 as stated: the grid on empty input is not
the empty grid. -/
theorem grid_empty_input_cex : gridCells [] ≠ [] := by
  decide

/-! ## Claim C8: weekly history ordering -/
lemma char_toNat_inj {a b : Char} (h : a.toNat = b.toNat) : a = b := by
  rw [← Char.ofNat_toNat a, ← Char.ofNat_toNat b, h]

lemma charListLt_asymm : ∀ s t : List Char,
    charListLt s t = true → charListLt t s = false
  | [], [] => by simp [charListLt]
  | [], b :: t => by simp [charListLt]
  | a :: s, [] => by simp [charListLt]
  | a :: s, b :: t => by
    show (if a.toNat < b.toNat then true
        else if b.toNat < a.toNat then false else charListLt s t) = true →
      (if b.toNat < a.toNat then true
        else if a.toNat < b.toNat then false else charListLt t s) = false
    intro h
    by_cases h1 : a.toNat < b.toNat
    · rw [if_neg (by omega), if_pos h1]
    · by_cases h2 : b.toNat < a.toNat
      · rw [if_neg h1, if_pos h2] at h
        exact absurd h (by simp)
      · rw [if_neg h1, if_neg h2] at h
        rw [if_neg h2, if_neg h1]
        exact charListLt_asymm s t h

lemma charListLt_trans : ∀ s t u : List Char,
    charListLt s t = true → charListLt t u = true → charListLt s u = true
  | _, [], [] => by simp [charListLt]
  | [], b :: t, [] => by simp [charListLt]
  | a :: s, b :: t, [] => by simp [charListLt]
  | [], _, c :: u => by intro _ _; simp [charListLt]
  | a :: s, [], c :: u => by simp [charListLt]
  | a :: s, b :: t, c :: u => by
    show (if a.toNat < b.toNat then true
        else if b.toNat < a.toNat then false else charListLt s t) = true →
      (if b.toNat < c.toNat then true
        else if c.toNat < b.toNat then false else charListLt t u) = true →
      (if a.toNat < c.toNat then true
        else if c.toNat < a.toNat then false else charListLt s u) = true
    intro h1 h2
    by_cases hab : a.toNat < b.toNat
    · by_cases hbc : b.toNat < c.toNat
      · rw [if_pos (by omega)]
      · by_cases hcb : c.toNat < b.toNat
        · rw [if_neg hbc, if_pos hcb] at h2
          exact absurd h2 (by simp)
        · rw [if_pos (by omega)]
    · by_cases hba : b.toNat < a.toNat
      · rw [if_neg hab, if_pos hba] at h1
        exact absurd h1 (by simp)
      · rw [if_neg hab, if_neg hba] at h1
        by_cases hbc : b.toNat < c.toNat
        · rw [if_pos (by omega)]
        · by_cases hcb : c.toNat < b.toNat
          · rw [if_neg hbc, if_pos hcb] at h2
            exact absurd h2 (by simp)
          · rw [if_neg hbc, if_neg hcb] at h2
            rw [if_neg (by omega), if_neg (by omega)]
            exact charListLt_trans s t u h1 h2

lemma charListLt_conn : ∀ s t : List Char,
    charListLt s t = false → charListLt t s = false → s = t
  | [], [] => by intro _ _; rfl
  | [], b :: t => by simp [charListLt]
  | a :: s, [] => by simp [charListLt]
  | a :: s, b :: t => by
    show (if a.toNat < b.toNat then true
        else if b.toNat < a.toNat then false else charListLt s t) = false →
      (if b.toNat < a.toNat then true
        else if a.toNat < b.toNat then false else charListLt t s) = false →
      a :: s = b :: t
    intro h1 h2
    by_cases hab : a.toNat < b.toNat
    · rw [if_pos hab] at h1
      exact absurd h1 (by simp)
    · by_cases hba : b.toNat < a.toNat
      · rw [if_pos hba] at h2
        exact absurd h2 (by simp)
      · rw [if_neg hab, if_neg hba] at h1
        rw [if_neg hba, if_neg hab] at h2
        have hc : a = b := char_toNat_inj (by omega)
        rw [hc, charListLt_conn s t h1 h2]

lemma pyStrLe_total (a b : String) :
    pyStrLe b a = true ∨ pyStrLe a b = true := by
  unfold pyStrLe pyStrLt
  by_cases h : charListLt a.data b.data = true
  · right
    rw [charListLt_asymm _ _ h]
    rfl
  · left
    simp only [Bool.not_eq_true] at h
    rw [h]
    rfl

lemma pyStrLe_trans {a b c : String} (h1 : pyStrLe b a = true)
    (h2 : pyStrLe c b = true) : pyStrLe c a = true := by
  unfold pyStrLe pyStrLt at h1 h2 ⊢
  rw [Bool.not_eq_true'] at h1 h2 ⊢
  cases hac : charListLt a.data c.data with
  | false => rfl
  | true =>
    by_cases hba : charListLt b.data a.data = true
    · exact absurd (charListLt_trans _ _ _ hba hac) (by simp [h2])
    · simp only [Bool.not_eq_true] at hba
      have hd : a.data = b.data := charListLt_conn _ _ h1 hba
      rw [hd] at hac
      exact absurd hac (by simp [h2])

instance : IsTotal String (fun a b => pyStrLe b a = true) :=
  ⟨fun a b => pyStrLe_total a b⟩

instance : IsTrans String (fun a b => pyStrLe b a = true) :=
  ⟨fun _ _ _ h1 h2 => pyStrLe_trans h1 h2⟩

lemma pyStrLt_of_le_of_ne {a b : String} (hle : pyStrLe b a = true)
    (hne : a ≠ b) : pyStrLt b a = true := by
  unfold pyStrLe pyStrLt at hle
  rw [Bool.not_eq_true'] at hle
  unfold pyStrLt
  by_contra hlt
  simp only [Bool.not_eq_true] at hlt
  exact hne (String.ext (charListLt_conn _ _ hle hlt))

/-- Claim C8 -/
theorem weekly_history (dates : List Date) (limit : Nat) :
    List.Pairwise (fun p q : String × Nat => pyStrLt q.1 p.1 = true)
      (weeklyHistory dates limit)
  ∧ (weeklyHistory dates limit).length = min limit (weekKeys dates).length
  ∧ (∀ p ∈ weeklyHistory dates limit,
      p.1 ∈ dates.map strfYearWeek
      ∧ p.2 = (dates.map strfYearWeek).count p.1 ∧ 0 < p.2)
  ∧ weeklyHistory [⟨2024, 1, 1⟩, ⟨2024, 1, 8⟩, ⟨2024, 1, 15⟩] 2
      = [("2024-W03", 1), ("2024-W02", 1)] := by
  have hperm := List.perm_insertionSort (fun a b : String => pyStrLe b a = true)
    (weekKeys dates)
  have hnodup : ((weekKeys dates).insertionSort
      (fun a b => pyStrLe b a = true)).Nodup :=
    hperm.nodup_iff.mpr (List.nodup_dedup _)
  have hsorted : List.Pairwise (fun a b : String => pyStrLe b a = true)
      ((weekKeys dates).insertionSort (fun a b => pyStrLe b a = true)) :=
    List.sorted_insertionSort _ _
  refine ⟨?_, ?_, ?_, by decide⟩
  · unfold weeklyHistory
    refine List.Pairwise.sublist (List.take_sublist _ _) ?_
    rw [List.pairwise_map]
    exact (hsorted.and hnodup).imp
      (fun h => pyStrLt_of_le_of_ne h.1 h.2)
  · unfold weeklyHistory
    rw [List.length_take, List.length_map, hperm.length_eq]
  · intro p hp
    unfold weeklyHistory at hp
    have hp' := List.mem_of_mem_take hp
    obtain ⟨k, hk, rfl⟩ := List.mem_map.mp hp'
    have hkmem : k ∈ dates.map strfYearWeek :=
      List.mem_dedup.mp (hperm.mem_iff.mp hk)
    exact ⟨hkmem, rfl, List.count_pos_iff.mpr hkmem⟩

theorem weekly_history_witness :
    (("2024-W03", 1) ∈ weeklyHistory [⟨2024, 1, 1⟩, ⟨2024, 1, 8⟩, ⟨2024, 1, 15⟩] 2) ∧
    (("2024-W03" : String) ∈ [(⟨2024, 1, 1⟩ : Date), ⟨2024, 1, 8⟩, ⟨2024, 1, 15⟩].map strfYearWeek
      ∧ (1 : Nat) = ([(⟨2024, 1, 1⟩ : Date), ⟨2024, 1, 8⟩, ⟨2024, 1, 15⟩].map strfYearWeek).count "2024-W03"
      ∧ (0 : Nat) < 1) :=
  ⟨by decide,
    (weekly_history [⟨2024, 1, 1⟩, ⟨2024, 1, 8⟩, ⟨2024, 1, 15⟩] 2).2.2.1
      ("2024-W03", 1) (by decide)⟩

/-! ## Claim C10: week-key refinement and ordering -/

lemma digitChars_small (n : Nat) (h : n < 10) : digitChars n = [dch n] :=
  digitCharsFuel_small n n h

lemma digitChars_ne_nil (n : Nat) : digitChars n ≠ [] := by
  rw [digitChars_eq n]
  split_ifs
  · simp
  · simp

lemma digitChars_two (w : Nat) (h1 : 10 ≤ w) (h2 : w ≤ 99) :
    digitChars w = [dch (w / 10), dch (w % 10)] := by
  rw [digitChars_eq w, if_neg (by omega), digitChars_small (w / 10) (by omega)]
  rfl

lemma digitChars_four (y : Nat) (h1 : 1000 ≤ y) (h2 : y ≤ 9999) :
    digitChars y
      = [dch (y / 1000), dch (y / 100 % 10), dch (y / 10 % 10), dch (y % 10)] := by
  have e10 : y / 10 / 10 = y / 100 := by omega
  have e100 : y / 100 / 10 = y / 1000 := by omega
  rw [digitChars_eq y, if_neg (by omega),
    digitChars_eq (y / 10), if_neg (by omega), e10,
    digitChars_eq (y / 100), if_neg (by omega), e100,
    digitChars_small (y / 1000) (by omega)]
  have e1 : y / 10 % 10 = y / 10 % 10 := rfl
  rfl

lemma padV_two (w : Nat) (h : w ≤ 99) :
    padV w = [dch (w / 10), dch (w % 10)] := by
  unfold padV
  by_cases hw : w < 10
  · rw [if_pos hw, digitChars_small w hw,
      show w / 10 = 0 by omega, show w % 10 = w by omega]
    rfl
  · rw [if_neg hw, digitChars_two w (by omega) h]

lemma padV_eq_zfill2 (w : Nat) : padV w = zfill2 (digitChars w) := by
  unfold padV zfill2
  by_cases hw : w < 10
  · rw [if_pos hw, digitChars_small w hw]
    rfl
  · rw [if_neg hw]
    have hlen : 2 ≤ (digitChars w).length := by
      rw [digitChars_eq w, if_neg hw]
      have := digitChars_ne_nil (w / 10)
      cases hcc : digitChars (w / 10) with
      | nil => exact absurd hcc this
      | cons c cs => simp
    rw [if_neg (by omega)]

/-- The character sequence of a week key with a four-digit ISO year and a
two-digit-or-less ISO week, spelled digit by digit. -/
def weekKeyChars (y w : Nat) : List Char :=
  [dch (y / 1000), dch (y / 100 % 10), dch (y / 10 % 10), dch (y % 10),
   '-', 'W', dch (w / 10), dch (w % 10)]

lemma strfYearWeek_data (d : Date) (h1 : 1000 ≤ (isocalendar d).1)
    (h2 : (isocalendar d).1 ≤ 9999) (h3 : (isocalendar d).2 ≤ 99) :
    (strfYearWeek d).data = weekKeyChars (isocalendar d).1 (isocalendar d).2 := by
  show digitChars (isocalendar d).1 ++ '-' :: 'W' :: padV (isocalendar d).2
    = weekKeyChars (isocalendar d).1 (isocalendar d).2
  rw [digitChars_four _ h1 h2, padV_two _ h3]
  rfl

lemma dch_toNat (n : Nat) (h : n < 10) : (dch n).toNat = 48 + n := by
  interval_cases n <;> decide

lemma dch_inj (a b : Nat) (ha : a < 10) (hb : b < 10) :
    dch a = dch b ↔ a = b := by
  constructor
  · intro h
    have := congrArg Char.toNat h
    rw [dch_toNat a ha, dch_toNat b hb] at this
    omega
  · rintro rfl
    rfl

lemma charListLt_cons_digits (a b : Nat) (s t : List Char)
    (ha : a < 10) (hb : b < 10) :
    charListLt (dch a :: s) (dch b :: t)
      = if a < b then true else if b < a then false else charListLt s t := by
  show (if (dch a).toNat < (dch b).toNat then true
      else if (dch b).toNat < (dch a).toNat then false else charListLt s t) = _
  rw [dch_toNat a ha, dch_toNat b hb,
    if_congr (show 48 + a < 48 + b ↔ a < b by omega) rfl rfl,
    if_congr (show 48 + b < 48 + a ↔ b < a by omega) rfl rfl]

lemma charListLt_cons_same (c : Char) (s t : List Char) :
    charListLt (c :: s) (c :: t) = charListLt s t := by
  show (if c.toNat < c.toNat then true
      else if c.toNat < c.toNat then false else charListLt s t) = _
  rw [if_neg (lt_irrefl _), if_neg (lt_irrefl _)]


set_option maxHeartbeats 1000000 in
lemma weekKeyChars_lt (y1 w1 y2 w2 : Nat)
    (hy1 : 1000 ≤ y1) (hy1' : y1 ≤ 9999) (hw1 : w1 ≤ 99)
    (hy2 : 1000 ≤ y2) (hy2' : y2 ≤ 9999) (hw2 : w2 ≤ 99) :
    charListLt (weekKeyChars y1 w1) (weekKeyChars y2 w2) = true
      ↔ (y1 < y2 ∨ (y1 = y2 ∧ w1 < w2)) := by
  unfold weekKeyChars
  rw [charListLt_cons_digits _ _ _ _ (by omega) (by omega),
    charListLt_cons_digits _ _ _ _ (by omega) (by omega),
    charListLt_cons_digits _ _ _ _ (by omega) (by omega),
    charListLt_cons_digits _ _ _ _ (by omega) (by omega)]
  rw [charListLt_cons_same, charListLt_cons_same]
  rw [charListLt_cons_digits _ _ _ _ (by omega) (by omega),
    charListLt_cons_digits _ _ _ _ (by omega) (by omega)]
  rw [show charListLt [] [] = false from rfl]
  by_cases cl0 : y1 / 1000 < y2 / 1000
  · rw [if_pos cl0]
    exact iff_of_true rfl (by omega)
  · rw [if_neg cl0]
    by_cases cr0 : y2 / 1000 < y1 / 1000
    · rw [if_pos cr0]
      exact iff_of_false (by decide) (by omega)
    · rw [if_neg cr0]
      by_cases cl1 : y1 / 100 % 10 < y2 / 100 % 10
      · rw [if_pos cl1]
        exact iff_of_true rfl (by omega)
      · rw [if_neg cl1]
        by_cases cr1 : y2 / 100 % 10 < y1 / 100 % 10
        · rw [if_pos cr1]
          exact iff_of_false (by decide) (by omega)
        · rw [if_neg cr1]
          by_cases cl2 : y1 / 10 % 10 < y2 / 10 % 10
          · rw [if_pos cl2]
            exact iff_of_true rfl (by omega)
          · rw [if_neg cl2]
            by_cases cr2 : y2 / 10 % 10 < y1 / 10 % 10
            · rw [if_pos cr2]
              exact iff_of_false (by decide) (by omega)
            · rw [if_neg cr2]
              by_cases cl3 : y1 % 10 < y2 % 10
              · rw [if_pos cl3]
                exact iff_of_true rfl (by omega)
              · rw [if_neg cl3]
                by_cases cr3 : y2 % 10 < y1 % 10
                · rw [if_pos cr3]
                  exact iff_of_false (by decide) (by omega)
                · rw [if_neg cr3]
                  by_cases cl4 : w1 / 10 < w2 / 10
                  · rw [if_pos cl4]
                    exact iff_of_true rfl (by omega)
                  · rw [if_neg cl4]
                    by_cases cr4 : w2 / 10 < w1 / 10
                    · rw [if_pos cr4]
                      exact iff_of_false (by decide) (by omega)
                    · rw [if_neg cr4]
                      by_cases cl5 : w1 % 10 < w2 % 10
                      · rw [if_pos cl5]
                        exact iff_of_true rfl (by omega)
                      · rw [if_neg cl5]
                        by_cases cr5 : w2 % 10 < w1 % 10
                        · rw [if_pos cr5]
                          exact iff_of_false (by decide) (by omega)
                        · rw [if_neg cr5]
                          exact iff_of_false (by decide) (by omega)

lemma weekKeyChars_eq (y1 w1 y2 w2 : Nat)
    (hy1 : 1000 ≤ y1) (hy1' : y1 ≤ 9999) (hw1 : w1 ≤ 99)
    (hy2 : 1000 ≤ y2) (hy2' : y2 ≤ 9999) (hw2 : w2 ≤ 99) :
    weekKeyChars y1 w1 = weekKeyChars y2 w2 ↔ (y1 = y2 ∧ w1 = w2) := by
  unfold weekKeyChars
  constructor
  · intro h
    simp only [List.cons.injEq] at h
    obtain ⟨e1, e2, e3, e4, -, -, e5, e6, -⟩ := h
    rw [dch_inj _ _ (by omega) (by omega)] at e1
    rw [dch_inj _ _ (by omega) (by omega)] at e2
    rw [dch_inj _ _ (by omega) (by omega)] at e3
    rw [dch_inj _ _ (by omega) (by omega)] at e4
    rw [dch_inj _ _ (by omega) (by omega)] at e5
    rw [dch_inj _ _ (by omega) (by omega)] at e6
    omega
  · intro h
    obtain ⟨hy, hw⟩ := h
    subst hy
    subst hw
    rfl

/-- Claim C10: for every date in the program's domain (pandas timestamps,
whose ISO years are four-digit), the `strftime("%G-W%V")` week key equals
the f-string key built from `isocalendar()` with a `zfill(2)` week; key
equality holds exactly for dates in the same ISO week; and Python's
lexicographic string order on the keys coincides with chronological
(ISO year, ISO week) order. -/
theorem week_key_refinement (d t : Date)
    (h1 : 1000 ≤ (isocalendar d).1) (h2 : (isocalendar d).1 ≤ 9999)
    (h3 : (isocalendar d).2 ≤ 99)
    (h4 : 1000 ≤ (isocalendar t).1) (h5 : (isocalendar t).1 ≤ 9999)
    (h6 : (isocalendar t).2 ≤ 99) :
    strfYearWeek d = fstrYearWeek d
  ∧ (strfYearWeek d = fstrYearWeek t ↔ isocalendar d = isocalendar t)
  ∧ (pyStrLt (strfYearWeek d) (strfYearWeek t) = true ↔
      ((isocalendar d).1 < (isocalendar t).1
        ∨ ((isocalendar d).1 = (isocalendar t).1
            ∧ (isocalendar d).2 < (isocalendar t).2))) := by
  have hfs : ∀ u : Date, fstrYearWeek u = strfYearWeek u := by
    intro u
    unfold fstrYearWeek strfYearWeek
    rw [padV_eq_zfill2]
  refine ⟨(hfs d).symm, ?_, ?_⟩
  · rw [hfs t]
    constructor
    · intro h
      have hd := congrArg String.data h
      rw [strfYearWeek_data d h1 h2 h3, strfYearWeek_data t h4 h5 h6] at hd
      have := (weekKeyChars_eq _ _ _ _ h1 h2 h3 h4 h5 h6).mp hd
      exact Prod.ext this.1 this.2
    · intro h
      unfold strfYearWeek
      rw [h]
  · unfold pyStrLt
    rw [strfYearWeek_data d h1 h2 h3, strfYearWeek_data t h4 h5 h6]
    exact weekKeyChars_lt _ _ _ _ h1 h2 h3 h4 h5 h6

theorem week_key_refinement_witness :
    (1000 ≤ (isocalendar ⟨2024, 1, 1⟩).1 ∧ (isocalendar ⟨2024, 1, 1⟩).1 ≤ 9999
      ∧ (isocalendar ⟨2024, 1, 1⟩).2 ≤ 99
      ∧ 1000 ≤ (isocalendar ⟨2024, 1, 8⟩).1 ∧ (isocalendar ⟨2024, 1, 8⟩).1 ≤ 9999
      ∧ (isocalendar ⟨2024, 1, 8⟩).2 ≤ 99)
  ∧ strfYearWeek ⟨2024, 1, 1⟩ = fstrYearWeek ⟨2024, 1, 1⟩
  ∧ (strfYearWeek ⟨2024, 1, 1⟩ = fstrYearWeek ⟨2024, 1, 8⟩ ↔
      isocalendar ⟨2024, 1, 1⟩ = isocalendar ⟨2024, 1, 8⟩)
  ∧ (pyStrLt (strfYearWeek ⟨2024, 1, 1⟩) (strfYearWeek ⟨2024, 1, 8⟩) = true ↔
      ((isocalendar ⟨2024, 1, 1⟩).1 < (isocalendar ⟨2024, 1, 8⟩).1
        ∨ ((isocalendar ⟨2024, 1, 1⟩).1 = (isocalendar ⟨2024, 1, 8⟩).1
            ∧ (isocalendar ⟨2024, 1, 1⟩).2 < (isocalendar ⟨2024, 1, 8⟩).2))) := by
  refine ⟨by decide, ?_⟩
  exact week_key_refinement ⟨2024, 1, 1⟩ ⟨2024, 1, 8⟩
    (by decide) (by decide) (by decide) (by decide) (by decide) (by decide)

end JobBuddy
